import Mathlib

/-!
Verification development for the Paisley mail-digest pipeline
(`classes/MailHandler.js`, `classes/DataHandler.js`).

Shallow embedding conventions:
* JavaScript numbers are modelled as exact rationals (`ℚ`).  `NaN` arising
  from numeric coercion is modelled as `Option ℚ` (`none` = NaN).  Non-finite
  IEEE values (`Infinity`, `NaN`) as *record values* are outside the model's
  value domain, matching the spec's data model of finite string/number
  scalars; likewise `Number()` string coercion is modelled for optionally
  signed decimal numerals (with optional fraction and exponent) and the empty
  string — hex/octal/binary literals and the string "Infinity" are outside
  the modelled string domain.
* Fallible code (`throw`) is modelled with `Except String`.
* `Array.prototype.sort` with the comparator `ascending ? a - z : z - a`
  derived from a total numeric key order is a consistent comparator, which
  ECMAScript (ES2019+) requires to produce a stable sorted permutation; it is
  modelled by the stable `List.insertionSort`.  A comparator that throws
  aborts the sort; since the comparator here throws independently of its
  operands (only on a non-whitelisted operator), the sort of two or more
  elements throws iff the key computation throws, and on at most one element
  the comparator is never invoked.
* In-place mutation (`transformPosts` / `sortAndSlicePost` assigning
  `posts.posts` and sorting arrays in place) is modelled with an explicit
  heap of arrays and documents, passed in state-passing style.
-/

namespace Paisley

/-- JavaScript primitive values as they occur in parsed YAML job documents. -/
inductive JSValue where
  | undefined
  | null
  | bool (b : Bool)
  | num (q : ℚ)
  | str (s : String)
deriving DecidableEq

/-- JavaScript truthiness of a `JSValue` (`undefined`, `null`, `false`, `0`,
`""` are falsy). -/
def jsTruthy : JSValue → Bool
  | .undefined => false
  | .null => false
  | .bool b => b
  | .num q => decide (q ≠ 0)
  | .str s => decide (s ≠ "")

/-- Whitespace recognised by JS `Number()` / `trim` (ASCII subset of `\s`;
Unicode spaces are outside the modelled string domain). -/
def jsWs (c : Char) : Bool :=
  c == ' ' || c == '\t' || c == '\n' || c == '\r' || c == '\x0b' || c == '\x0c'

/-- Strip leading and trailing JS whitespace from a character list. -/
def jsTrimChars (cs : List Char) : List Char :=
  ((cs.dropWhile jsWs).reverse.dropWhile jsWs).reverse

/-- Numeric value of a list of decimal digit characters. -/
def digitsToNat (cs : List Char) : Nat :=
  cs.foldl (fun acc c => acc * 10 + (c.toNat - 48)) 0

/-- Split a character list on every occurrence of a separator character,
like `String.prototype.split` with a single-character separator. -/
def splitOnChar (sep : Char) : List Char → List (List Char)
  | [] => [[]]
  | c :: rest =>
    let r := splitOnChar sep rest
    if c = sep then [] :: r
    else
      match r with
      | h :: t => (c :: h) :: t
      | [] => [[c]]

/-- Parse an unsigned decimal mantissa (`123`, `123.45`, `.45`, `12.`);
`none` models NaN. -/
def parseMantissa (cs : List Char) : Option ℚ :=
  match splitOnChar '.' cs with
  | [intPart] =>
    if !intPart.isEmpty && intPart.all Char.isDigit then
      some (digitsToNat intPart)
    else none
  | [intPart, fracPart] =>
    if (!intPart.isEmpty || !fracPart.isEmpty)
        && intPart.all Char.isDigit && fracPart.all Char.isDigit then
      some ((digitsToNat intPart : ℚ) + (digitsToNat fracPart : ℚ) / (10 : ℚ) ^ fracPart.length)
    else none
  | _ => none

/-- Parse an optional leading sign and delegate to a parser of the rest. -/
def parseSigned (parse : List Char → Option ℚ) : List Char → Option ℚ
  | '+' :: rest => parse rest
  | '-' :: rest => (parse rest).map Neg.neg
  | cs => parse cs

/-- Parse an exponent part (after `e`/`E`): optionally signed decimal digits. -/
def parseExp : List Char → Option Int
  | '+' :: rest =>
    if !rest.isEmpty && rest.all Char.isDigit then some (digitsToNat rest) else none
  | '-' :: rest =>
    if !rest.isEmpty && rest.all Char.isDigit then some (-(digitsToNat rest : Int)) else none
  | rest =>
    if !rest.isEmpty && rest.all Char.isDigit then some (digitsToNat rest : Int) else none

/-- JS `Number(string)` coercion on the modelled string domain: trimmed empty
string is `0`, optionally signed decimal numerals with optional fraction and
exponent parse to their exact rational value, anything else is NaN (`none`). -/
def jsStrToNum (s : String) : Option ℚ :=
  let cs := jsTrimChars s.data
  if cs.isEmpty then some 0
  else
    match cs.span (fun c => !(c == 'e' || c == 'E')) with
    | (mant, []) => parseSigned parseMantissa mant
    | (mant, _e :: expPart) => do
      let m ← parseSigned parseMantissa mant
      let e ← parseExp expPart
      some (m * (10 : ℚ) ^ e)

/-- JS `Number(v)` coercion; `none` models NaN. -/
def jsToNumber : JSValue → Option ℚ
  | .undefined => none
  | .null => some 0
  | .bool b => some (if b then 1 else 0)
  | .num q => some q
  | .str s => jsStrToNum s

/-- The operator whitelist of `MailHandler.safeEvaluate`. -/
def allowedOperators : List String := ["+", "-", "*", "/"]

/-- `allowedOperators.includes(operator)`: strict equality against each list
entry, so a non-string operator never matches. -/
def operatorAllowed : JSValue → Bool
  | .str s => allowedOperators.contains s
  | _ => false

/-- `MailHandler.safeEvaluate(operand1, operator, operand2)`: whitelist check,
then `Number(x) || 0` coercion of each operand (NaN becomes 0), then the
arithmetic switch; division by a zero second operand returns 0. -/
def safeEvaluate (operand1 : JSValue) (operator : JSValue) (operand2 : JSValue) :
    Except String ℚ :=
  if !operatorAllowed operator then
    .error "Invalid operator"
  else
    let num1 := (jsToNumber operand1).getD 0
    let num2 := (jsToNumber operand2).getD 0
    if operator = .str "+" then .ok (num1 + num2)
    else if operator = .str "-" then .ok (num1 - num2)
    else if operator = .str "*" then .ok (num1 * num2)
    else if operator = .str "/" then .ok (if num2 ≠ 0 then num1 / num2 else 0)
    else .ok 0

/-- A post record: a JS object mapping string property names to scalar
values (association list, first binding wins). -/
abbrev PostRecord := List (String × JSValue)

/-- Property access `record[key]`, `undefined` when absent. -/
def jsGet (r : PostRecord) (k : String) : JSValue :=
  (r.lookup k).getD .undefined

/-- `MailHandler.fetchProp(data, prop)`: `result` starts as the number 0, is
replaced by `data[prop]` when `prop` is a string and the value truthy, and the
return is `!Number(result) ? 0 : Number(result)` — i.e. the coerced number
with NaN (and 0 itself) collapsing to 0. -/
def fetchProp (r : PostRecord) (prop : JSValue) : ℚ :=
  let result : JSValue :=
    match prop with
    | .str s => if jsTruthy (jsGet r s) then jsGet r s else .num 0
    | _ => .num 0
  (jsToNumber result).getD 0

/-- The shape of `config.sort` as found in a parsed YAML config: absent (or
any other falsy value), a string, an array, or some other truthy value. -/
inductive SortSetting where
  | absent
  | name (s : String)
  | arr (elems : List JSValue)
  | otherTruthy
deriving DecidableEq

/-- JS truthiness of the `config.sort` value (arrays are always truthy, an
empty string is falsy). -/
def sortTruthy : SortSetting → Bool
  | .absent => false
  | .name s => decide (s ≠ "")
  | .arr _ => true
  | .otherTruthy => true

/-- `const sort = config.sort ? config.sort : 'points'` in
`sortAndSlicePost`. -/
def effectiveSort (s : SortSetting) : SortSetting :=
  if sortTruthy s then s else .name "points"

/-- The per-record numeric key computed inside the sort comparator of
`sortAndSlicePost`: a 3-element array goes through `safeEvaluate` on the two
fetched operands, anything else is passed to `fetchProp` as the property
selector (a non-string selector short-circuits `fetchProp` to 0). -/
def sortKey (sort : SortSetting) (r : PostRecord) : Except String ℚ :=
  match sort with
  | .arr elems =>
    match elems with
    | [fo, op, so] => safeEvaluate (.num (fetchProp r fo)) op (.num (fetchProp r so))
    | _ => .ok 0
  | .name s => .ok (fetchProp r (.str s))
  | .otherTruthy => .ok 0
  | .absent => .ok 0

/-- Total version of `sortKey` (defaulting to 0 on a throwing evaluator),
used to state ordering properties of successful runs. -/
def sortKeyD (sort : SortSetting) (r : PostRecord) : ℚ :=
  ((sortKey sort r).toOption).getD 0

/-- The sort/filter/slice options of one collection or structure section
(`SortConfig` in the spec). -/
structure SortConfig where
  sort : SortSetting
  ascending : Bool
  count : Option Int
  property : Option String
  value : Option String
deriving DecidableEq

/-- JS truthiness of an optional string config field. -/
def optTruthy : Option String → Bool
  | some s => decide (s ≠ "")
  | none => false

/-- `config.property && config.value`: the filter runs only when both are
truthy. -/
def filterActive (cfg : SortConfig) : Bool :=
  optTruthy cfg.property && optTruthy cfg.value

/-- One post's filter test `regex.test(post[config.property])`; the regular
expression engine (pattern, raw property value) is the opaque collaborator
`rt`. -/
def filterPred (rt : String → JSValue → Bool) (cfg : SortConfig) (post : PostRecord) : Bool :=
  rt (cfg.value.getD "") (jsGet post (cfg.property.getD ""))

/-- The filtering step of `sortAndSlicePost`. -/
def filterPosts (rt : String → JSValue → Bool) (cfg : SortConfig)
    (posts : List PostRecord) : List PostRecord :=
  if filterActive cfg then posts.filter (filterPred rt cfg) else posts

/-- `const count = config.count ? config.count : 6`. -/
def effCount (cfg : SortConfig) : Int :=
  match cfg.count with
  | some n => if n ≠ 0 then n else 6
  | none => 6

/-- `Array.prototype.slice(0, n)` (a negative end counts from the end). -/
def jsSlice0 {α : Type} (n : Int) (xs : List α) : List α :=
  if 0 ≤ n then xs.take n.toNat else xs.take ((xs.length : Int) + n).toNat

/-- The order on keyed records used by the comparator
`ascending ? a - z : z - a`. -/
def keyLE (ascending : Bool) (x y : ℚ × PostRecord) : Prop :=
  if ascending then x.1 ≤ y.1 else y.1 ≤ x.1

instance (ascending : Bool) : DecidableRel (keyLE ascending) := fun x y => by
  unfold keyLE; split <;> infer_instance

instance (ascending : Bool) : IsTotal (ℚ × PostRecord) (keyLE ascending) where
  total x y := by unfold keyLE; split <;> exact le_total _ _

instance (ascending : Bool) : IsTrans (ℚ × PostRecord) (keyLE ascending) where
  trans x y z := by
    unfold keyLE
    split
    · exact fun h1 h2 => le_trans h1 h2
    · exact fun h1 h2 => le_trans h2 h1

/-- Effectful map over `Except` (structural recursion, first error wins). -/
def mapExcept {α β : Type} (f : α → Except String β) : List α → Except String (List β)
  | [] => .ok []
  | a :: l => do
    let b ← f a
    let bs ← mapExcept f l
    .ok (b :: bs)

/-- Content semantics of `posts.sort(comparator)`: on at most one element the
comparator is never invoked; otherwise the keys are computed (a throwing
`safeEvaluate` aborts the sort) and the list is stably sorted by key in the
requested direction. -/
def jsSortContent (cfg : SortConfig) (content : List PostRecord) :
    Except String (List PostRecord) :=
  if content.length ≤ 1 then .ok content
  else do
    let keyed ← mapExcept
      (fun p => (sortKey (effectiveSort cfg.sort) p).map (fun k => (k, p))) content
    .ok ((List.insertionSort (keyLE cfg.ascending) keyed).map Prod.snd)

/-- One collection together with its config (content view, no heap). -/
structure PostCollection where
  posts : List PostRecord
  config : SortConfig
deriving DecidableEq

/-- Content semantics of `MailHandler.sortAndSlicePost`: filter when
`property`/`value` are both truthy, sort, then `slice(0, count)` with count
defaulting to 6. -/
def sortAndSlicePost (rt : String → JSValue → Bool) (pc : PostCollection) :
    Except String PostCollection := do
  let sorted ← jsSortContent pc.config (filterPosts rt pc.config pc.posts)
  .ok ⟨jsSlice0 (effCount pc.config) sorted, pc.config⟩

/-- The full config object of a collection: the sort options used when the
collection is shaped unsectioned, plus the optional `structure` mapping
(key/config pairs in mapping order; absent or empty maps to `[]`). -/
structure CollConfig where
  base : SortConfig
  struct : List (String × SortConfig)
deriving DecidableEq

/-- A section object produced for one structure key: a shallow copy of the
collection whose `config` was replaced by the structure entry; `posts` is a
reference (heap index) to an array of records. -/
structure SectionObj where
  posts : Nat
  config : SortConfig
deriving DecidableEq

/-- A collection object as it sits in a job document: a reference to its
posts array plus its full config. -/
structure CollObj where
  posts : Nat
  config : CollConfig
deriving DecidableEq

/-- One entry of the output `mails` array: either a (possibly mutated)
collection object or a fresh `{ sections: [...] }` object. -/
inductive MailEntry where
  | coll (c : CollObj)
  | sections (ss : List SectionObj)
deriving DecidableEq

/-- A job document: the ordered collection entries plus the digest name. -/
structure DocObj where
  mails : List MailEntry
  name : JSValue
deriving DecidableEq

/-- The explicit heap: post-record arrays and job documents, addressed by
index.  JS aliasing of arrays between objects is index sharing. -/
structure Heap where
  arrays : List (List PostRecord)
  docs : List DocObj
deriving DecidableEq

/-- Allocate a fresh array (e.g. the result of `filter`/`slice`). -/
def allocArr (h : Heap) (content : List PostRecord) : Heap × Nat :=
  (⟨h.arrays ++ [content], h.docs⟩, h.arrays.length)

/-- Read an array through its reference. -/
def readArr (h : Heap) (i : Nat) : List PostRecord :=
  (h.arrays.get? i).getD []

/-- Overwrite an array in place (the effect of `Array.prototype.sort`). -/
def writeArr (h : Heap) (i : Nat) (content : List PostRecord) : Heap :=
  ⟨h.arrays.set i content, h.docs⟩

/-- The sort-and-slice tail of the heap-level `sortAndSlicePost`: the sort
mutates the currently referenced array in place (`posts.posts.sort(...)`),
then the slice allocates the final fresh array `posts.posts` is rebound
to. -/
def sortSliceCore (cfg : SortConfig)
    (h1 : Heap) (pid1 : Nat) : Except String (Heap × Nat) :=
  match jsSortContent cfg (readArr h1 pid1) with
  | .error e => .error e
  | .ok sorted =>
    .ok (allocArr (writeArr h1 pid1 sorted) (jsSlice0 (effCount cfg) sorted))

/-- Heap-level `sortAndSlicePost` applied to a posts reference: the filter
(when active) allocates a fresh array and rebinds `posts.posts` to it —
breaking any sharing — after which the sort mutates the referenced array in
place and the slice allocates the final fresh array.  Returns the final
posts reference. -/
def sortAndSliceArr (rt : String → JSValue → Bool) (h : Heap) (pid : Nat)
    (cfg : SortConfig) : Except String (Heap × Nat) :=
  if filterActive cfg then
    let s := allocArr h ((readArr h pid).filter (filterPred rt cfg))
    sortSliceCore cfg s.1 s.2
  else sortSliceCore cfg h pid

/-- Shaping of the structure sections of one collection, in mapping order:
each section is a shallow copy of the collection (sharing the same posts
array reference `pid`) with the structure entry as its config, then run
through the heap-level `sortAndSlicePost`. -/
def transformSections (rt : String → JSValue → Bool) (h : Heap) (pid : Nat) :
    List (String × SortConfig) → Except String (Heap × List SectionObj)
  | [] => .ok (h, [])
  | kv :: rest =>
    match sortAndSliceArr rt h pid kv.2 with
    | .error e => .error e
    | .ok r1 =>
      match transformSections rt r1.1 pid rest with
      | .error e => .error e
      | .ok r2 => .ok (r2.1, ⟨r1.2, kv.2⟩ :: r2.2)

/-- Shaping of one `mails` entry by `transformPosts`: a collection whose
config holds a non-empty `structure` map is replaced by a `{ sections }`
object; otherwise the collection itself is run through `sortAndSlicePost`
(its posts reference is rebound to the sliced result).  An entry without a
usable config throws, matching the JS property access on `undefined`. -/
def transformEntry (rt : String → JSValue → Bool) (h : Heap) :
    MailEntry → Except String (Heap × MailEntry)
  | .coll c =>
    if c.config.struct.length > 0 then
      match transformSections rt h c.posts c.config.struct with
      | .error e => .error e
      | .ok r => .ok (r.1, .sections r.2)
    else
      match sortAndSliceArr rt h c.posts c.config.base with
      | .error e => .error e
      | .ok r => .ok (r.1, .coll ⟨r.2, c.config⟩)
  | .sections _ => .error "config undefined"

/-- `data.mails.map(...)` with the heap threaded left to right. -/
def transformEntries (rt : String → JSValue → Bool) (h : Heap) :
    List MailEntry → Except String (Heap × List MailEntry)
  | [] => .ok (h, [])
  | e :: es =>
    match transformEntry rt h e with
    | .error er => .error er
    | .ok r1 =>
      match transformEntries rt r1.1 es with
      | .error er => .error er
      | .ok r2 => .ok (r2.1, r1.2 :: r2.2)

/-- `MailHandler.transformPosts(data)`: maps the shaping over `data.mails`,
assigns the resulting array back onto the *same* document object, and
returns that object (modelled by returning the unchanged document
reference). -/
def transformPosts (rt : String → JSValue → Bool) (h : Heap) (did : Nat) :
    Except String (Heap × Nat) :=
  match h.docs.get? did with
  | none => .error "document not found"
  | some doc =>
    match transformEntries rt h doc.mails with
    | .error e => .error e
    | .ok r => .ok (⟨r.1.arrays, r.1.docs.set did ⟨r.2, doc.name⟩⟩, did)

/-- The posts references of the collection entries of a `mails` list. -/
def entryIds : List MailEntry → List Nat :=
  List.filterMap fun e =>
    match e with
    | .coll c => some c.posts
    | .sections _ => none

/-- Outcome of one `sendMailWithRetry` run: how many attempts were made,
the backoff delays slept (in milliseconds, in order), and the final
outcome. -/
structure RetryResult where
  attemptsMade : Nat
  delaysMs : List Nat
  outcome : Except String Unit

/-- The `DeliveryFailed` message raised after exhausting all attempts,
carrying the last underlying error's message. -/
def failAfterMsg (maxRetries : Nat) (lastMsg : String) : String :=
  "Failed to send email after " ++ toString maxRetries ++ " attempts: " ++ lastMsg

/-- The retry loop of `sendMailWithRetry` from a given attempt number: try
the send; on success return; on failure wait `2 ^ attempt * 1000`
milliseconds when further attempts remain, else raise `DeliveryFailed` with
the last error.  `send` gives the transport's outcome for each attempt
number. -/
def retryFrom (send : Nat → Except String Unit) (maxRetries : Nat)
    (attempt : Nat) (delays : List Nat) : RetryResult :=
  if _h : attempt ≤ maxRetries then
    match send attempt with
    | .ok _ => ⟨attempt, delays, .ok ()⟩
    | .error e =>
      if h2 : attempt < maxRetries then
        retryFrom send maxRetries (attempt + 1) (delays ++ [2 ^ attempt * 1000])
      else ⟨attempt, delays, .error (failAfterMsg maxRetries e)⟩
  else ⟨0, delays, .error "no attempts made"⟩
termination_by maxRetries + 1 - attempt

/-- `MailHandler.sendMailWithRetry` with the per-attempt transport outcome
abstracted as `send`. -/
def sendMailWithRetry (send : Nat → Except String Unit) (maxRetries : Nat) :
    RetryResult :=
  retryFrom send maxRetries 1 []

/-- Does the domain part contain a `.` that is neither its first nor its
last character (the `[^\s@]+\.[^\s@]+` tail of the email pattern, whose
pieces may themselves contain dots)? -/
def hasInnerDot (cs : List Char) : Bool :=
  ((cs.drop 1).dropLast).contains '.'

/-- `MailHandler.isValidEmail` on a string value: trim, then test
`^[^\s@]+@[^\s@]+\.[^\s@]+$` — exactly one `@`, a non-empty whitespace-free
local part, and a domain with an inner dot. -/
def isValidEmailStr (email : String) : Bool :=
  match splitOnChar '@' (jsTrimChars email.data) with
  | [localPart, domain] =>
    !localPart.isEmpty && localPart.all (fun c => !jsWs c)
      && domain.all (fun c => !jsWs c) && hasInnerDot domain
  | _ => false

/-- `MailHandler.isValidEmail`: false for any non-string (or falsy) value. -/
def isValidEmail : JSValue → Bool
  | .str s => isValidEmailStr s
  | _ => false

/-- Does the character list contain two consecutive dots
(`filePath.includes('..')`)? -/
def hasDotDot : List Char → Bool
  | '.' :: '.' :: _ => true
  | _ :: rest => hasDotDot rest
  | [] => false

/-- List-level decidable test that `cs` begins with `pre`. -/
def listIsPrefixOf : List Char → List Char → Bool
  | [], _ => true
  | _ :: _, [] => false
  | p :: ps, c :: cs => p == c && listIsPrefixOf ps cs

/-- Node `path.resolve(base, p)` modelled for inputs free of `.`/`..`
segments, with `base` an already-normalized absolute directory (the `..`
case is separately rejected by `isSafePath` before resolving). -/
def resolveDirect (base p : String) : String :=
  if listIsPrefixOf ['/'] p.data then p else base ++ "/" ++ p

/-- `MailHandler.isSafePath`: reject empty paths and paths containing `..`,
then require the resolved path to start with the resolved data directory. -/
def isSafePath (dataDir filePath : String) : Bool :=
  if filePath = "" then false
  else if hasDotDot filePath.data then false
  else listIsPrefixOf dataDir.data (resolveDirect dataDir filePath).data

/-- A line terminator for the JS `.` metacharacter. -/
def isLineTerm (c : Char) : Bool :=
  c == '\n' || c == '\r' || c.toNat == 0x2028 || c.toNat == 0x2029

/-- The test `/(.+)-mail-[0-9]+\.yaml$/.test(file)`.  A match exists iff the
name ends in `.yaml`, the stem ends in a non-empty digit run, and that run
is immediately preceded by `-mail-` which is in turn preceded by at least
one non-line-terminator character (the `.+` group can match just that one
character, so only the character directly before `-mail-` matters; a
shorter digit run cannot be chosen because `-mail-` ends in `-`, a
non-digit, forcing the digit run to be maximal). -/
def emailRegexTest (file : String) : Bool :=
  let cs := file.data
  if listIsPrefixOf (".yaml".data.reverse) cs.reverse then
    let stemRev := cs.reverse.drop 5
    let digitRun := stemRev.takeWhile Char.isDigit
    let restRev := stemRev.dropWhile Char.isDigit
    !digitRun.isEmpty && listIsPrefixOf ("-mail-".data.reverse) restRev
      && (match restRev.drop 6 with
          | c :: _ => !isLineTerm c
          | [] => false)
  else false

/-- The environment configuration surface read by `MailHandler.init`;
`process.env` values are strings. -/
structure MailEnv where
  HOST : String
  PORT : String
  LOGIN : String
  PASSWORD : String
  FROM_EMAIL : String
  MAIL_DATA_DIR : String
  VIEWS_DIR : String

/-- The constructor state of a `MailHandler` (fields as JS values). -/
structure MailHandlerCfg where
  host : JSValue
  port : JSValue
  username : JSValue
  password : JSValue
  fromEmail : JSValue
  dataDir : JSValue
  viewsDir : JSValue

/-- `MailHandler.init()`: every field is taken from the environment, so in
particular `port` is the *string* `process.env.PORT`. -/
def mailHandlerInit (env : MailEnv) : MailHandlerCfg :=
  ⟨.str env.HOST, .str env.PORT, .str env.LOGIN, .str env.PASSWORD,
    .str env.FROM_EMAIL, .str env.MAIL_DATA_DIR, .str env.VIEWS_DIR⟩

/-- The options object handed to `mailer.createTransport` by
`MailHandler.sendMail`. -/
structure TransportOptions where
  host : JSValue
  port : JSValue
  secure : Bool
  user : JSValue
  pass : JSValue
  connectionTimeoutMs : Nat
  greetingTimeoutMs : Nat
  socketTimeoutMs : Nat

/-- The transport options built by `sendMail`: `secure: this.port === 465`
is a strict equality, so a string port (as read from the environment) never
selects secure mode. -/
def mkTransportOptions (cfg : MailHandlerCfg) : TransportOptions :=
  ⟨cfg.host, cfg.port, cfg.port == JSValue.num 465, cfg.username, cfg.password,
    10000, 10000, 10000⟩

/-- The composed mail data for one candidate file (`constructMailData`'s
resolved value). -/
structure MailData where
  email : String
  mail : String
  name : String

/-- The aggregate result object returned by `MailHandler.start`. -/
structure BatchResult where
  success : Nat
  failed : Nat
  errors : List String
deriving DecidableEq

/-- Processing of one directory entry inside `MailHandler.start`: skip
silently unless the filename matches the candidate pattern; record (but do
not count as failed) an unsafe path; otherwise compose and deliver inside a
try/catch that turns any exception into one `failed` increment plus one
error message.  `construct` abstracts `constructMailData` (composition and
rendering) and `sendR` abstracts `sendMailWithRetry`'s final outcome. -/
def processFile (dataDir : String) (construct : String → Except String MailData)
    (sendR : MailData → Except String Unit) (s : BatchResult) (file : String) :
    BatchResult :=
  if !emailRegexTest file then s
  else if !isSafePath dataDir file then
    ⟨s.success, s.failed, s.errors ++ ["Skipping unsafe file path: " ++ file]⟩
  else
    match construct (dataDir ++ "/" ++ file) with
    | .error e =>
      ⟨s.success, s.failed + 1, s.errors ++ ["Failed to process " ++ file ++ ": " ++ e]⟩
    | .ok d =>
      if !isValidEmail (.str d.email) then
        ⟨s.success, s.failed + 1,
          s.errors ++ ["Invalid email address in file " ++ file ++ ": " ++ d.email]⟩
      else
        match sendR d with
        | .error e =>
          ⟨s.success, s.failed + 1,
            s.errors ++ ["Failed to process " ++ file ++ ": " ++ e]⟩
        | .ok _ => ⟨s.success + 1, s.failed, s.errors⟩

/-- The candidate loop of `MailHandler.start` over the directory listing. -/
def runFiles (dataDir : String) (construct : String → Except String MailData)
    (sendR : MailData → Except String Unit) (s : BatchResult)
    (files : List String) : BatchResult :=
  files.foldl (processFile dataDir construct sendR) s

/-- `MailHandler.start`: fold the per-candidate processing over the
directory listing starting from zero counters; by construction it returns an
aggregate `BatchResult` and never propagates a per-candidate exception
(directory listing and creation are outside the model; `files` is the
listing, empty for a freshly created directory). -/
def start (dataDir : String) (construct : String → Except String MailData)
    (sendR : MailData → Except String Unit) (files : List String) : BatchResult :=
  runFiles dataDir construct sendR ⟨0, 0, []⟩ files

/-- Example record with `r = 1` and `s = 5`. -/
def recA : PostRecord := [("r", .num 1), ("s", .num 5)]

/-- Example record with `r = 2` and the same `s = 5` (a tie on `s`). -/
def recB : PostRecord := [("r", .num 2), ("s", .num 5)]

/-- A structure section config sorting by `r` descending (no filter, so its
sort reorders the shared posts array in place). -/
def secFirstCfg : SortConfig := ⟨.name "r", false, none, none, none⟩

/-- A structure section config sorting by `s` ascending; `recA` and `recB`
tie on `s`, so its output order is whatever order its input array has. -/
def secTieCfg : SortConfig := ⟨.name "s", true, none, none, none⟩

/-- A collection config with a two-key structure map. -/
def exCollCfg : CollConfig :=
  ⟨⟨.absent, false, none, none, none⟩, [("first", secFirstCfg), ("second", secTieCfg)]⟩

/-- Example heap: one document holding one structured collection whose posts
array (index 0) holds `recA, recB`. -/
def exHeap : Heap := ⟨[[recA, recB]], [⟨[.coll ⟨0, exCollCfg⟩], .str "Digest"⟩]⟩

/-- A plain (unstructured) collection config sorting by `r`. -/
def plainCfg : CollConfig := ⟨⟨.name "r", false, none, none, none⟩, []⟩

/-- Example heap with one singleton unstructured collection. -/
def exHeapW : Heap := ⟨[[recA]], [⟨[.coll ⟨0, plainCfg⟩], .str "D"⟩]⟩

/-- The heap produced by shaping `exHeapW` in place: the sliced copy of the
posts lives in the fresh array 1 and the document's collection now points at
it. -/
def exHeapW2 : Heap := ⟨[[recA], [recA]], [⟨[.coll ⟨1, plainCfg⟩], .str "D"⟩]⟩

/-!
Theorems.
-/

/-- C1: for every operator string and pair of operands, `safeEvaluate`
raises its `InvalidOperator` error iff the operator is outside the whitelist
`{+, -, *, /}`; a whitelisted operator returns the exact arithmetic result
on the `Number(x) || 0` coercions of the operands (an operand that does not
coerce to a number becomes 0), with division by a zero second operand
returning 0 and never raising. -/
theorem safeEvaluate_contract (a b : JSValue) (op : String) :
    ((∃ e, safeEvaluate a (.str op) b = .error e) ↔ op ∉ allowedOperators)
    ∧ (op = "+" → safeEvaluate a (.str op) b =
        .ok ((jsToNumber a).getD 0 + (jsToNumber b).getD 0))
    ∧ (op = "-" → safeEvaluate a (.str op) b =
        .ok ((jsToNumber a).getD 0 - (jsToNumber b).getD 0))
    ∧ (op = "*" → safeEvaluate a (.str op) b =
        .ok ((jsToNumber a).getD 0 * (jsToNumber b).getD 0))
    ∧ (op = "/" → safeEvaluate a (.str op) b =
        .ok (if (jsToNumber b).getD 0 = 0 then 0
             else (jsToNumber a).getD 0 / (jsToNumber b).getD 0)) := by
  by_cases hop : op ∈ allowedOperators
  · have hops : op = "+" ∨ op = "-" ∨ op = "*" ∨ op = "/" := by
      simpa [allowedOperators] using hop
    rcases hops with rfl | rfl | rfl | rfl <;>
      refine ⟨⟨fun ⟨e, he⟩ => absurd he (by simp [safeEvaluate, operatorAllowed,
          allowedOperators]), fun hmem => absurd (by simp [allowedOperators]) hmem⟩,
        ?_, ?_, ?_, ?_⟩ <;>
      intro h <;>
      first
        | exact absurd h (by decide)
        | simp [safeEvaluate, operatorAllowed, allowedOperators, ite_not]
  · have hall : operatorAllowed (.str op) = false := by
      simp only [operatorAllowed]
      simpa using hop
    have herr : safeEvaluate a (.str op) b = .error "Invalid operator" := by
      simp [safeEvaluate, hall]
    refine ⟨⟨fun _ => hop, fun _ => ⟨_, herr⟩⟩, ?_, ?_, ?_, ?_⟩ <;>
      · rintro rfl
        exact absurd (by simp [allowedOperators]) hop

/-- C1 witness: division by zero returns 0 and the modulus operator is
rejected, at concrete inputs. -/
theorem safeEvaluate_contract_witness :
    safeEvaluate (.num 7) (.str "/") (.num 0) = .ok 0
    ∧ (∃ e, safeEvaluate (.num 7) (.str "%") (.num 2) = .error e) := by
  constructor
  · have h := (safeEvaluate_contract (.num 7) (.num 0) "/").2.2.2.2 rfl
    simpa using h
  · exact (safeEvaluate_contract (.num 7) (.num 2) "%").1.mpr (by decide)

/-- C6: `fetchProp` returns 0 when the selector is not a string, when the
record has no truthy value at that key, or when the value coerces to NaN;
in every other case it returns the value coerced to a number. -/
theorem fetchProp_contract (r : PostRecord) (prop : JSValue) :
    ((∀ s, prop ≠ .str s) → fetchProp r prop = 0)
    ∧ (∀ s, prop = .str s →
        (jsTruthy (jsGet r s) = false → fetchProp r prop = 0)
        ∧ (jsToNumber (jsGet r s) = none → fetchProp r prop = 0)
        ∧ (∀ q, jsTruthy (jsGet r s) = true → jsToNumber (jsGet r s) = some q →
            fetchProp r prop = q)) := by
  constructor
  · intro hns
    cases prop with
    | str s => exact absurd rfl (hns s)
    | undefined => rfl
    | null => rfl
    | bool b => rfl
    | num q => rfl
  · rintro s rfl
    refine ⟨fun hf => ?_, fun hn => ?_, fun q ht hq => ?_⟩
    · simp [fetchProp, hf, jsToNumber, jsStrToNum, jsTrimChars]
    · by_cases ht : jsTruthy (jsGet r s) = true
      · simp [fetchProp, ht, hn]
      · simp [fetchProp, ht, jsToNumber, jsStrToNum, jsTrimChars]
    · simp [fetchProp, ht, hq]

/-- C6 witness: a present numeric string coerces to its value; a missing
key gives 0; a non-string selector gives 0. -/
theorem fetchProp_contract_witness :
    fetchProp [("points", JSValue.str "3")] (.str "points") = 3
    ∧ fetchProp [("points", JSValue.num 5)] (.str "missing") = 0
    ∧ fetchProp [("points", JSValue.num 5)] .null = 0 := by
  refine ⟨?_, ?_, ?_⟩
  · exact ((fetchProp_contract [("points", JSValue.str "3")] (.str "points")).2
      "points" rfl).2.2 3 (by decide) (by decide)
  · exact ((fetchProp_contract [("points", JSValue.num 5)] (.str "missing")).2
      "missing" rfl).1 (by decide)
  · exact (fetchProp_contract [("points", JSValue.num 5)] .null).1
      (fun s h => by cases h)

/-- C7 counterexample: with `config.sort` absent the claim says the key of
every record is 0, but the code substitutes the default property name
`points`, so a record with `points = 5` gets key 5. -/
theorem sortKey_default_counterexample :
    sortKeyD (effectiveSort .absent) [("points", JSValue.num 5)] = 5
    ∧ ¬ sortKeyD (effectiveSort .absent) [("points", JSValue.num 5)] = 0 := by
  decide

/-- C7 amended: when `config.sort` is truthy but neither a string nor a
3-element array the key of every record is 0 (degenerate sort); when it is
absent (or otherwise falsy) the default property name `points` is used and
the key is `fetchProp(record, 'points')`. -/
theorem sortKey_shape_contract (r : PostRecord) :
    sortKeyD (effectiveSort .otherTruthy) r = 0
    ∧ (∀ elems, elems.length ≠ 3 → sortKeyD (effectiveSort (.arr elems)) r = 0)
    ∧ sortKeyD (effectiveSort .absent) r = fetchProp r (.str "points") := by
  refine ⟨rfl, fun elems hlen => ?_, rfl⟩
  match elems with
  | [] => rfl
  | [_] => rfl
  | [_, _] => rfl
  | [_, _, _] => exact absurd rfl hlen
  | _ :: _ :: _ :: _ :: _ => rfl

/-- C7 amended witness: a 2-element sort array yields key 0 at a concrete
record. -/
theorem sortKey_shape_contract_witness :
    sortKeyD (effectiveSort (.arr [JSValue.str "r", JSValue.str "s"]))
      [("r", JSValue.num 1)] = 0 := by
  exact (sortKey_shape_contract [("r", JSValue.num 1)]).2.1
    [JSValue.str "r", JSValue.str "s"] (by decide)

/-- One unfolding step of the retry loop while attempts remain. -/
theorem retryFrom_step (send : Nat → Except String Unit) (m a : Nat)
    (ds : List Nat) (ha : a ≤ m) :
    retryFrom send m a ds =
      match send a with
      | .ok _ => ⟨a, ds, .ok ()⟩
      | .error e =>
        if a < m then retryFrom send m (a + 1) (ds ++ [2 ^ a * 1000])
        else ⟨a, ds, .error (failAfterMsg m e)⟩ := by
  rw [retryFrom]
  simp [ha]

/-- C2: with the default `maxAttempts = 3`, a transport failing on all three
attempts yields exactly 3 attempts, backoff waits of 2^1 and 2^2 seconds
(2000 ms then 4000 ms), and a `DeliveryFailed` error carrying the last
underlying error's message; a transport failing twice then succeeding
returns successfully on the third attempt after the same two waits. -/
theorem sendMailWithRetry_policy (send : Nat → Except String Unit) :
    (∀ e1 e2 e3, send 1 = .error e1 → send 2 = .error e2 → send 3 = .error e3 →
      sendMailWithRetry send 3 = ⟨3, [2000, 4000], .error (failAfterMsg 3 e3)⟩)
    ∧ (∀ e1 e2, send 1 = .error e1 → send 2 = .error e2 → send 3 = .ok () →
      sendMailWithRetry send 3 = ⟨3, [2000, 4000], .ok ()⟩) := by
  constructor
  · intro e1 e2 e3 h1 h2 h3
    unfold sendMailWithRetry
    rw [retryFrom_step send 3 1 [] (by norm_num), h1]
    simp only [show (1 : Nat) < 3 by norm_num, if_true]
    rw [retryFrom_step send 3 2 _ (by norm_num), h2]
    simp only [show (2 : Nat) < 3 by norm_num, if_true]
    rw [retryFrom_step send 3 3 _ (by norm_num), h3]
    norm_num
  · intro e1 e2 h1 h2 h3
    unfold sendMailWithRetry
    rw [retryFrom_step send 3 1 [] (by norm_num), h1]
    simp only [show (1 : Nat) < 3 by norm_num, if_true]
    rw [retryFrom_step send 3 2 _ (by norm_num), h2]
    simp only [show (2 : Nat) < 3 by norm_num, if_true]
    rw [retryFrom_step send 3 3 _ (by norm_num), h3]
    norm_num

/-- C2 witness: the two scenarios at concrete transports. -/
theorem sendMailWithRetry_policy_witness :
    sendMailWithRetry (fun _ => .error "boom") 3
      = ⟨3, [2000, 4000], .error (failAfterMsg 3 "boom")⟩
    ∧ sendMailWithRetry (fun k => if k ≤ 2 then .error "boom" else .ok ()) 3
      = ⟨3, [2000, 4000], .ok ()⟩ := by
  constructor
  · exact (sendMailWithRetry_policy (fun _ => .error "boom")).1 "boom" "boom" "boom"
      rfl rfl rfl
  · exact (sendMailWithRetry_policy (fun k => if k ≤ 2 then .error "boom" else .ok ())).2
      "boom" "boom" rfl rfl rfl

/-- C9 (code bug): `secure: this.port === 465` compares the port from
`process.env.PORT` — always a string — strictly against the number 465, so
for every environment (including `PORT = "465"`) the secure flag is false;
the spec's intended behaviour (secure iff port 465) never engages. -/
theorem initPort_secure_never (env : MailEnv) :
    (mkTransportOptions (mailHandlerInit env)).secure = false := rfl

/-- A successful `mapExcept` preserves the length. -/
theorem mapExcept_ok_length {α β : Type} {f : α → Except String β} :
    ∀ {l : List α} {l' : List β}, mapExcept f l = .ok l' → l'.length = l.length := by
  intro l
  induction l with
  | nil => intro l' h; cases h; rfl
  | cons a t ih =>
    intro l' h
    simp only [mapExcept] at h
    rcases hfa : f a with e | b <;> rw [hfa] at h
    · cases h
    · rcases hmt : mapExcept f t with e | bs <;> rw [hmt] at h
      · cases h
      · cases h
        simpa using ih hmt

/-- Every element of a successful `mapExcept` output is the successful image
of an input element. -/
theorem mapExcept_ok_mem {α β : Type} {f : α → Except String β} :
    ∀ {l : List α} {l' : List β}, mapExcept f l = .ok l' →
      ∀ b ∈ l', ∃ a ∈ l, f a = .ok b := by
  intro l
  induction l with
  | nil => intro l' h; cases h; intro b hb; cases hb
  | cons a t ih =>
    intro l' h
    simp only [mapExcept] at h
    rcases hfa : f a with e | b0 <;> rw [hfa] at h
    · cases h
    · rcases hmt : mapExcept f t with e | bs <;> rw [hmt] at h
      · cases h
      · cases h
        intro b hb
        rcases List.mem_cons.mp hb with rfl | hbs
        · exact ⟨a, List.mem_cons_self a t, hfa⟩
        · rcases ih hmt b hbs with ⟨a', ha', hfa'⟩
          exact ⟨a', List.mem_cons_of_mem a ha', hfa'⟩

/-- A successful `jsSortContent` is a permutation of its input; in
particular it preserves the length. -/
theorem jsSortContent_ok_length (cfg : SortConfig) (content : List PostRecord)
    (sorted : List PostRecord) (h : jsSortContent cfg content = .ok sorted) :
    sorted.length = content.length := by
  unfold jsSortContent at h
  by_cases hlen : content.length ≤ 1
  · rw [if_pos hlen] at h
    cases h
    rfl
  · rw [if_neg hlen] at h
    rcases hm : mapExcept
        (fun p => (sortKey (effectiveSort cfg.sort) p).map (fun k => (k, p)))
        content with e | keyed <;> rw [hm] at h
    · cases h
    · cases h
      have h1 : (List.insertionSort (keyLE cfg.ascending) keyed).length = keyed.length :=
        (List.perm_insertionSort (keyLE cfg.ascending) keyed).length_eq
      simpa [h1] using mapExcept_ok_length hm

/-- `Array.prototype.slice(0, n)` is a take. -/
theorem jsSlice0_is_take {α : Type} (n : Int) (xs : List α) :
    ∃ k, jsSlice0 n xs = xs.take k := by
  unfold jsSlice0
  by_cases h : 0 ≤ n
  · exact ⟨n.toNat, if_pos h⟩
  · exact ⟨((xs.length : Int) + n).toNat, if_neg h⟩

/-- C4: for a positive configured count (6 when absent), `sortAndSlicePost`
returns a posts list of length `min(count, length of the filtered posts)`,
taken from the front of the sorted order. -/
theorem sortAndSlicePost_length (rt : String → JSValue → Bool)
    (pc : PostCollection) (hcount : ∀ n, pc.config.count = some n → 0 < n)
    (out : PostCollection) (hok : sortAndSlicePost rt pc = .ok out) :
    out.posts.length
      = min (effCount pc.config).toNat (filterPosts rt pc.config pc.posts).length
    ∧ ∃ sorted, jsSortContent pc.config (filterPosts rt pc.config pc.posts) = .ok sorted
        ∧ out.posts = sorted.take (effCount pc.config).toNat := by
  have hpos : 0 < effCount pc.config := by
    rcases hc : pc.config.count with _ | n
    · simp [effCount, hc]
    · have hn := hcount n hc
      simp only [effCount, hc]
      rw [if_pos (by omega : n ≠ 0)]
      exact hn
  unfold sortAndSlicePost at hok
  rcases hs : jsSortContent pc.config (filterPosts rt pc.config pc.posts)
      with e | sorted <;> rw [hs] at hok
  · cases hok
  · cases hok
    have htake : jsSlice0 (effCount pc.config) sorted
        = sorted.take (effCount pc.config).toNat := by
      unfold jsSlice0
      exact if_pos (le_of_lt hpos)
    refine ⟨?_, sorted, rfl, htake⟩
    simp only [htake, List.length_take]
    rw [jsSortContent_ok_length pc.config _ sorted hs]

/-- C4 witness: the tie-config collection of two records is returned whole
(count defaults to 6 > 2). -/
theorem sortAndSlicePost_length_witness :
    ([recA, recB] : List PostRecord).length
      = min (effCount secTieCfg).toNat
          (filterPosts (fun _ _ => true) secTieCfg [recA, recB]).length := by
  have h := sortAndSlicePost_length (fun _ _ => true) ⟨[recA, recB], secTieCfg⟩
    (fun n hn => by cases hn) ⟨[recA, recB], secTieCfg⟩ rfl
  exact h.1

/-- Each keyed pair produced for the sort carries the key of its record. -/
theorem keyed_fst_eq (s : SortSetting) {p : PostRecord} {x : ℚ × PostRecord}
    (h : ((sortKey s p).map (fun k => (k, p)) : Except String (ℚ × PostRecord)) = .ok x) :
    x = (sortKeyD s p, p) := by
  rcases hk : sortKey s p with e | k <;> rw [hk] at h
  · cases h
  · cases h
    simp [sortKeyD, hk, Except.toOption]

/-- C5: in a successful `sortAndSlicePost` result, adjacent records are
ordered by the derived numeric sort key: non-decreasing when
`config.ascending` is true, non-increasing otherwise. -/
theorem sortAndSlicePost_sorted (rt : String → JSValue → Bool)
    (pc : PostCollection) (out : PostCollection)
    (hok : sortAndSlicePost rt pc = .ok out)
    (i : Nat) (p q : PostRecord)
    (hp : out.posts.get? i = some p) (hq : out.posts.get? (i + 1) = some q) :
    (pc.config.ascending = true →
      sortKeyD (effectiveSort pc.config.sort) p
        ≤ sortKeyD (effectiveSort pc.config.sort) q)
    ∧ (pc.config.ascending = false →
      sortKeyD (effectiveSort pc.config.sort) q
        ≤ sortKeyD (effectiveSort pc.config.sort) p) := by
  unfold sortAndSlicePost at hok
  rcases hs : jsSortContent pc.config (filterPosts rt pc.config pc.posts)
      with e | sorted <;> rw [hs] at hok
  · cases hok
  · cases hok
    dsimp only at hp hq
    unfold jsSortContent at hs
    by_cases hlen : (filterPosts rt pc.config pc.posts).length ≤ 1
    · rw [if_pos hlen] at hs
      cases hs
      rcases jsSlice0_is_take (effCount pc.config) (filterPosts rt pc.config pc.posts)
          with ⟨k, hk⟩
      rw [hk] at hq
      rcases List.get?_eq_some.mp hq with ⟨hqi, _⟩
      have := List.length_take k (filterPosts rt pc.config pc.posts)
      omega
    · rw [if_neg hlen] at hs
      rcases hm : mapExcept
          (fun r => (sortKey (effectiveSort pc.config.sort) r).map (fun k => (k, r)))
          (filterPosts rt pc.config pc.posts) with e | keyed <;> rw [hm] at hs
      · cases hs
      · cases hs
        have hpair : List.Pairwise (keyLE pc.config.ascending)
            (List.insertionSort (keyLE pc.config.ascending) keyed) :=
          List.sorted_insertionSort (keyLE pc.config.ascending) keyed
        have hmemkey : ∀ x ∈ List.insertionSort (keyLE pc.config.ascending) keyed,
            x = (sortKeyD (effectiveSort pc.config.sort) x.2, x.2) := by
          intro x hx
          have hxk : x ∈ keyed :=
            (List.perm_insertionSort (keyLE pc.config.ascending) keyed).mem_iff.mp hx
          rcases mapExcept_ok_mem hm x hxk with ⟨r, _, hr⟩
          have hx2 := keyed_fst_eq (effectiveSort pc.config.sort) hr
          rw [hx2]
        have hpair2 : List.Pairwise
            (fun a b : PostRecord =>
              keyLE pc.config.ascending
                (sortKeyD (effectiveSort pc.config.sort) a, a)
                (sortKeyD (effectiveSort pc.config.sort) b, b))
            ((List.insertionSort (keyLE pc.config.ascending) keyed).map Prod.snd) := by
          rw [List.pairwise_map]
          refine List.Pairwise.imp_of_mem ?_ hpair
          intro x y hx hy hxy
          have ex := hmemkey x hx
          have ey := hmemkey y hy
          rw [← ex, ← ey]
          exact hxy
        rcases jsSlice0_is_take (effCount pc.config)
            ((List.insertionSort (keyLE pc.config.ascending) keyed).map Prod.snd)
            with ⟨k, hk⟩
        rw [hk] at hp hq
        have hpair3 : List.Pairwise
            (fun a b : PostRecord =>
              keyLE pc.config.ascending
                (sortKeyD (effectiveSort pc.config.sort) a, a)
                (sortKeyD (effectiveSort pc.config.sort) b, b))
            (((List.insertionSort (keyLE pc.config.ascending) keyed).map Prod.snd).take k) :=
          List.Pairwise.sublist (List.take_sublist _ _) hpair2
        rcases List.get?_eq_some.mp hp with ⟨hpi, hpe⟩
        rcases List.get?_eq_some.mp hq with ⟨hqi, hqe⟩
        have hadj := List.pairwise_iff_get.mp hpair3 ⟨i, hpi⟩ ⟨i + 1, hqi⟩
          (Fin.mk_lt_mk.mpr (Nat.lt_succ_self i))
        rw [hpe, hqe] at hadj
        constructor
        · intro hasc
          unfold keyLE at hadj
          rw [hasc] at hadj
          simpa using hadj
        · intro hdesc
          unfold keyLE at hadj
          rw [hdesc] at hadj
          simpa using hadj

/-- C5 witness: sorting `recA, recB` by `r` descending puts `recB` first,
and the adjacent pair satisfies the descending key inequality. -/
theorem sortAndSlicePost_sorted_witness :
    sortKeyD (effectiveSort (SortSetting.name "r")) recA
      ≤ sortKeyD (effectiveSort (SortSetting.name "r")) recB := by
  have h := sortAndSlicePost_sorted (fun _ _ => true) ⟨[recA, recB], secFirstCfg⟩
    ⟨[recB, recA], secFirstCfg⟩ rfl 0 recB recA rfl rfl
  exact h.2 rfl

/-- C8: a candidate file whose composition or delivery raises an exception
contributes exactly one `failed` increment and one appended error message,
leaves `success` unchanged, and does not stop the remaining files from
being processed (the loop simply continues from the updated accumulator);
`start` is a total fold returning the aggregate `{success, failed, errors}`
object, never propagating a per-candidate error. -/
theorem start_isolates_failures (dataDir : String)
    (construct : String → Except String MailData)
    (sendR : MailData → Except String Unit) (s : BatchResult) (file : String)
    (hmatch : emailRegexTest file = true) (hsafe : isSafePath dataDir file = true)
    (hfail : (∃ e, construct (dataDir ++ "/" ++ file) = .error e)
      ∨ (∃ d e, construct (dataDir ++ "/" ++ file) = .ok d
          ∧ isValidEmail (.str d.email) = true ∧ sendR d = .error e)) :
    (∃ msg, processFile dataDir construct sendR s file
      = ⟨s.success, s.failed + 1, s.errors ++ [msg]⟩)
    ∧ (∀ rest, runFiles dataDir construct sendR s (file :: rest)
        = runFiles dataDir construct sendR
            (processFile dataDir construct sendR s file) rest)
    ∧ (∀ files, start dataDir construct sendR files
        = runFiles dataDir construct sendR ⟨0, 0, []⟩ files) := by
  refine ⟨?_, fun rest => rfl, fun files => rfl⟩
  rcases hfail with ⟨e, he⟩ | ⟨d, e, hd, hvalid, hsend⟩
  · refine ⟨"Failed to process " ++ file ++ ": " ++ e, ?_⟩
    simp [processFile, hmatch, hsafe, he]
  · refine ⟨"Failed to process " ++ file ++ ": " ++ e, ?_⟩
    simp [processFile, hmatch, hsafe, hd, hvalid, hsend]

/-- C8 witness: a failing composer on a well-formed candidate increments
`failed` once, appends one message, and the next file is still processed. -/
theorem start_isolates_failures_witness :
    (start "/data" (fun _ => .error "boom") (fun _ => .ok ())
      ["a@b.cc-mail-0.yaml", "skipme.txt"]).failed = 1
    ∧ (start "/data" (fun _ => .error "boom") (fun _ => .ok ())
      ["a@b.cc-mail-0.yaml", "skipme.txt"]).success = 0
    ∧ (start "/data" (fun _ => .error "boom") (fun _ => .ok ())
      ["a@b.cc-mail-0.yaml", "skipme.txt"]).errors.length = 1 := by
  have h := start_isolates_failures "/data" (fun _ => .error "boom")
    (fun _ => .ok ()) ⟨0, 0, []⟩ "a@b.cc-mail-0.yaml" (by decide) (by decide)
    (Or.inl ⟨"boom", rfl⟩)
  rcases h with ⟨⟨msg, hmsg⟩, hrun, hstart⟩
  have hskip : emailRegexTest "skipme.txt" = false := by decide
  rw [hstart ["a@b.cc-mail-0.yaml", "skipme.txt"],
    hrun ["skipme.txt"], hmsg]
  simp [runFiles, processFile, hskip]

/-- C3 (code bug): shaping the structured collection of `exHeap` computes
section `first` (sort by `r` descending, reordering the shared posts array 0
in place to `recB, recA`) and then section `second` (sort by `s`, a tie for
both records), whose output array (index 2) is therefore `[recB, recA]` —
while an independent filter/sort/slice of the original posts under the same
section config keeps the original order `[recA, recB]`.  The sections are
not independent, contradicting the documented intent of the shallow copy. -/
theorem transformPosts_shared_array_eval :
    (transformPosts (fun _ _ => true) exHeap 0).map (fun hd => hd.1.docs.get? 0)
      = .ok (some ⟨[.sections [⟨1, secFirstCfg⟩, ⟨2, secTieCfg⟩]], .str "Digest"⟩)
    ∧ (transformPosts (fun _ _ => true) exHeap 0).map (fun hd => readArr hd.1 2)
      = .ok [recB, recA]
    ∧ sortAndSlicePost (fun _ _ => true) ⟨[recA, recB], secTieCfg⟩
      = .ok ⟨[recA, recB], secTieCfg⟩
    ∧ ([recB, recA] : List PostRecord) ≠ [recA, recB] := by
  exact ⟨rfl, rfl, rfl, by decide⟩

/-- Reading a freshly allocated array gives its content. -/
theorem readArr_alloc_self (h : Heap) (c : List PostRecord) :
    readArr (allocArr h c).1 (allocArr h c).2 = c := by
  simp [readArr, allocArr, List.get?_concat_length]

/-- Allocation preserves the existing arrays. -/
theorem get?_alloc_lt (h : Heap) (c : List PostRecord) (i : Nat)
    (hi : i < h.arrays.length) :
    (allocArr h c).1.arrays.get? i = h.arrays.get? i := by
  show (h.arrays ++ [c]).get? i = h.arrays.get? i
  exact List.get?_append hi

/-- Writing one array in place leaves every other array unchanged. -/
theorem get?_write_ne (h : Heap) (i j : Nat) (c : List PostRecord)
    (hne : j ≠ i) :
    (writeArr h i c).arrays.get? j = h.arrays.get? j := by
  show (h.arrays.set i c).get? j = h.arrays.get? j
  exact List.get?_set_ne c h.arrays (Ne.symm hne)

/-- Allocation grows the array store by one. -/
theorem allocArr_length (h : Heap) (c : List PostRecord) :
    (allocArr h c).1.arrays.length = h.arrays.length + 1 := by
  simp [allocArr]

/-- Frame and content specification of the sort-and-slice tail: it preserves
documents, grows the array store by exactly one, returns the fresh index,
preserves every array other than the sorted reference, and the fresh array
holds the slice of the successfully sorted content. -/
theorem sortSliceCore_spec (cfg : SortConfig) (h1 : Heap) (pid1 : Nat)
    (hh : Heap) (sid : Nat) (hok : sortSliceCore cfg h1 pid1 = .ok (hh, sid)) :
    hh.docs = h1.docs
    ∧ hh.arrays.length = h1.arrays.length + 1
    ∧ sid = h1.arrays.length
    ∧ (∀ i, i < h1.arrays.length → i ≠ pid1 → hh.arrays.get? i = h1.arrays.get? i)
    ∧ ∃ sorted, jsSortContent cfg (readArr h1 pid1) = .ok sorted
        ∧ readArr hh sid = jsSlice0 (effCount cfg) sorted := by
  unfold sortSliceCore at hok
  rcases hs : jsSortContent cfg (readArr h1 pid1) with e | sorted <;> rw [hs] at hok
  · cases hok
  · cases hok
    refine ⟨rfl, ?_, ?_, ?_, sorted, rfl, ?_⟩
    · simp [allocArr, writeArr]
    · simp [allocArr, writeArr]
    · intro i hi hip
      show ((h1.arrays.set pid1 sorted) ++ [jsSlice0 (effCount cfg) sorted]).get? i
          = h1.arrays.get? i
      rw [List.get?_append (by simpa using hi)]
      exact List.get?_set_ne sorted h1.arrays (Ne.symm hip)
    · exact readArr_alloc_self _ _

/-- Frame and content specification of the heap-level `sortAndSlicePost` on
one posts reference: documents are untouched, the array store only grows,
the returned reference is fresh, every array other than the input reference
is preserved (the input array itself may be reordered in place by the sort),
and the fresh array holds exactly the content the pure `sortAndSlicePost`
computes from the input array's (pre-call) content. -/
theorem sortAndSliceArr_spec (rt : String → JSValue → Bool) (h : Heap)
    (pid : Nat) (cfg : SortConfig) (hh : Heap) (sid : Nat)
    (hok : sortAndSliceArr rt h pid cfg = .ok (hh, sid)) :
    hh.docs = h.docs
    ∧ h.arrays.length ≤ hh.arrays.length
    ∧ h.arrays.length ≤ sid
    ∧ sid < hh.arrays.length
    ∧ (∀ i, i < h.arrays.length → i ≠ pid → hh.arrays.get? i = h.arrays.get? i)
    ∧ ∃ out, sortAndSlicePost rt ⟨readArr h pid, cfg⟩ = .ok out
        ∧ readArr hh sid = out.posts := by
  unfold sortAndSliceArr at hok
  by_cases hf : filterActive cfg
  · rw [if_pos hf] at hok
    have hok2 : sortSliceCore cfg
        (allocArr h ((readArr h pid).filter (filterPred rt cfg))).1
        (allocArr h ((readArr h pid).filter (filterPred rt cfg))).2
        = .ok (hh, sid) := hok
    obtain ⟨hdocs, hlen, hsid, hframe, sorted, hs, hcontent⟩ :=
      sortSliceCore_spec cfg _ _ hh sid hok2
    have halen := allocArr_length h ((readArr h pid).filter (filterPred rt cfg))
    have hread : readArr (allocArr h ((readArr h pid).filter (filterPred rt cfg))).1
        (allocArr h ((readArr h pid).filter (filterPred rt cfg))).2
        = filterPosts rt cfg (readArr h pid) := by
      rw [readArr_alloc_self]
      simp [filterPosts, hf]
    refine ⟨hdocs, by omega, by omega, by omega, ?_, ?_⟩
    · intro i hi hip
      have hia : i ≠ (allocArr h ((readArr h pid).filter (filterPred rt cfg))).2 := by
        show i ≠ h.arrays.length
        omega
      rw [hframe i (by omega) hia]
      exact get?_alloc_lt h _ i hi
    · refine ⟨⟨jsSlice0 (effCount cfg) sorted, cfg⟩, ?_, hcontent⟩
      unfold sortAndSlicePost
      rw [← hread, hs]
      rfl
  · rw [if_neg hf] at hok
    obtain ⟨hdocs, hlen, hsid, hframe, sorted, hs, hcontent⟩ :=
      sortSliceCore_spec cfg h pid hh sid hok
    have hread : readArr h pid = filterPosts rt cfg (readArr h pid) := by
      simp [filterPosts, hf]
    refine ⟨hdocs, by omega, by omega, by omega, ?_, ?_⟩
    · exact fun i hi hip => hframe i hi hip
    · refine ⟨⟨jsSlice0 (effCount cfg) sorted, cfg⟩, ?_, hcontent⟩
      unfold sortAndSlicePost
      rw [← hread, hs]
      rfl

/-- Frame and shape specification of the sectioning loop: documents are
untouched, the array store only grows, every array other than the shared
posts reference is preserved, and one section is produced per structure
key. -/
theorem transformSections_spec (rt : String → JSValue → Bool) :
    ∀ (cfgL : List (String × SortConfig)) (h : Heap) (pid : Nat)
      (hh : Heap) (ss : List SectionObj),
      transformSections rt h pid cfgL = .ok (hh, ss) →
      hh.docs = h.docs
      ∧ h.arrays.length ≤ hh.arrays.length
      ∧ (∀ i, i < h.arrays.length → i ≠ pid → hh.arrays.get? i = h.arrays.get? i)
      ∧ ss.length = cfgL.length := by
  intro cfgL
  induction cfgL with
  | nil =>
    intro h pid hh ss hok
    cases hok
    exact ⟨rfl, le_refl _, fun _ _ _ => rfl, rfl⟩
  | cons kv rest ih =>
    intro h pid hh ss hok
    unfold transformSections at hok
    rcases h1 : sortAndSliceArr rt h pid kv.2 with e | r1 <;> rw [h1] at hok
    · cases hok
    · dsimp only at hok
      rcases h2 : transformSections rt r1.1 pid rest with e | r2 <;> rw [h2] at hok
      · cases hok
      · cases hok
        obtain ⟨d1, l1, _, _, f1, _⟩ :=
          sortAndSliceArr_spec rt h pid kv.2 r1.1 r1.2 (by rw [h1])
        obtain ⟨d2, l2, f2, len2⟩ := ih r1.1 pid r2.1 r2.2 (by rw [h2])
        refine ⟨d2.trans d1, le_trans l1 l2, ?_, ?_⟩
        · intro i hi hip
          rw [f2 i (by omega) hip]
          exact f1 i hi hip
        · simp [len2]

/-- Frame and shape specification of shaping one collection entry:
documents untouched, arrays only grow, every array other than the
collection's own posts reference preserved, and the output entry is either
the same collection rebound to a fresh sliced array holding the pure
`sortAndSlicePost` content (no structure) or a fresh sections object with
one section per structure key. -/
theorem transformEntry_spec (rt : String → JSValue → Bool) (h : Heap)
    (c : CollObj) (hh : Heap) (e1 : MailEntry)
    (hok : transformEntry rt h (.coll c) = .ok (hh, e1)) :
    hh.docs = h.docs
    ∧ h.arrays.length ≤ hh.arrays.length
    ∧ (∀ i, i < h.arrays.length → i ≠ c.posts → hh.arrays.get? i = h.arrays.get? i)
    ∧ (c.config.struct = [] →
        ∃ nid out, e1 = .coll ⟨nid, c.config⟩
          ∧ h.arrays.length ≤ nid ∧ nid < hh.arrays.length
          ∧ sortAndSlicePost rt ⟨readArr h c.posts, c.config.base⟩ = .ok out
          ∧ readArr hh nid = out.posts)
    ∧ (c.config.struct ≠ [] →
        ∃ ss, e1 = .sections ss ∧ ss.length = c.config.struct.length) := by
  unfold transformEntry at hok
  dsimp only at hok
  by_cases hstruct : c.config.struct.length > 0
  · rw [if_pos hstruct] at hok
    rcases h1 : transformSections rt h c.posts c.config.struct with e | r <;>
      rw [h1] at hok
    · cases hok
    · cases hok
      obtain ⟨d, l, f, len⟩ :=
        transformSections_spec rt c.config.struct h c.posts r.1 r.2 (by rw [h1])
      refine ⟨d, l, f, fun hemp => ?_, fun _ => ⟨r.2, rfl, len⟩⟩
      rw [hemp] at hstruct
      simp at hstruct
  · rw [if_neg hstruct] at hok
    rcases h1 : sortAndSliceArr rt h c.posts c.config.base with e | r <;>
      rw [h1] at hok
    · cases hok
    · cases hok
      obtain ⟨d, l, lsid, sid_lt, f, out, hpure, hcont⟩ :=
        sortAndSliceArr_spec rt h c.posts c.config.base r.1 r.2 (by rw [h1])
      have hemp : c.config.struct = [] := by
        cases hcs : c.config.struct with
        | nil => rfl
        | cons a t =>
          rw [hcs] at hstruct
          simp at hstruct
      exact ⟨d, l, f, fun _ => ⟨r.2, out, rfl, lsid, sid_lt, hpure, hcont⟩,
        fun hne => absurd hemp hne⟩

/-- Frame, shape and content specification of shaping a whole `mails` list
whose collection posts references are all valid and pairwise distinct:
documents untouched, arrays only grow, any array outside the entry
references preserved, the output has one entry in place of each input entry,
and each collection entry is shaped from its *original* (pre-call) posts
content — either rebound to a fresh array holding the pure
`sortAndSlicePost` result, or replaced by a sections object with one section
per structure key. -/
theorem transformEntries_spec (rt : String → JSValue → Bool) :
    ∀ (es : List MailEntry) (h : Heap) (hh : Heap) (es1 : List MailEntry),
      (∀ id ∈ entryIds es, id < h.arrays.length) →
      (entryIds es).Nodup →
      transformEntries rt h es = .ok (hh, es1) →
      hh.docs = h.docs
      ∧ h.arrays.length ≤ hh.arrays.length
      ∧ (∀ i, i < h.arrays.length → i ∉ entryIds es →
          hh.arrays.get? i = h.arrays.get? i)
      ∧ es1.length = es.length
      ∧ (∀ (j : Nat) (c : CollObj), es.get? j = some (.coll c) →
          (c.config.struct = [] →
            ∃ nid out, es1.get? j = some (.coll ⟨nid, c.config⟩)
              ∧ sortAndSlicePost rt ⟨readArr h c.posts, c.config.base⟩ = .ok out
              ∧ readArr hh nid = out.posts)
          ∧ (c.config.struct ≠ [] →
            ∃ ss, es1.get? j = some (.sections ss)
              ∧ ss.length = c.config.struct.length)) := by
  intro es
  induction es with
  | nil =>
    intro h hh es1 _ _ hok
    cases hok
    refine ⟨rfl, le_refl _, fun _ _ _ => rfl, rfl, fun j c hj => ?_⟩
    cases j <;> cases hj
  | cons e es ih =>
    intro h hh es1 hbound hnodup hok
    unfold transformEntries at hok
    rcases h1 : transformEntry rt h e with er | r1 <;> rw [h1] at hok
    · cases hok
    · dsimp only at hok
      rcases h2 : transformEntries rt r1.1 es with er | r2 <;> rw [h2] at hok
      · cases hok
      · cases hok
        rcases e with c | ss0
        · have hidcons : entryIds (MailEntry.coll c :: es) = c.posts :: entryIds es := rfl
          have hcb : c.posts < h.arrays.length := by
            apply hbound
            rw [hidcons]
            exact List.mem_cons_self _ _
          have hnd := hidcons ▸ hnodup
          have hnotin : c.posts ∉ entryIds es := (List.nodup_cons.mp hnd).1
          have hndtail : (entryIds es).Nodup := (List.nodup_cons.mp hnd).2
          obtain ⟨d1, l1, f1, hplain, hsect⟩ :=
            transformEntry_spec rt h c r1.1 r1.2 (by rw [h1])
          have hboundtail : ∀ id ∈ entryIds es, id < r1.1.arrays.length := by
            intro id hid
            have := hbound id (by rw [hidcons]; exact List.mem_cons_of_mem _ hid)
            omega
          obtain ⟨d2, l2, f2, len2, hpt2⟩ :=
            ih r1.1 r2.1 r2.2 hboundtail hndtail (by rw [h2])
          have hframe : ∀ i, i < h.arrays.length →
              i ∉ entryIds (MailEntry.coll c :: es) →
              r2.1.arrays.get? i = h.arrays.get? i := by
            intro i hi hni
            rw [hidcons] at hni
            have hip : i ≠ c.posts := fun he => hni (he ▸ List.mem_cons_self _ _)
            have hnes : i ∉ entryIds es := fun hmem => hni (List.mem_cons_of_mem _ hmem)
            rw [f2 i (by omega) hnes]
            exact f1 i hi hip
          refine ⟨d2.trans d1, le_trans l1 l2, hframe, by simp [len2], ?_⟩
          intro j c' hj
          cases j with
          | zero =>
            cases hj
            constructor
            · intro hemp
              obtain ⟨nid, out, he1, hnl, hnu, hpure, hcont⟩ := hplain hemp
              refine ⟨nid, out, ?_, hpure, ?_⟩
              · rw [he1]
                rfl
              · have hnidtail : nid ∉ entryIds es := by
                  intro hmem
                  have hlt := hbound nid
                    (by rw [hidcons]; exact List.mem_cons_of_mem _ hmem)
                  omega
                have := f2 nid (by omega) hnidtail
                unfold readArr
                rw [this]
                exact hcont
            · intro hne
              obtain ⟨ss, he1, hlen⟩ := hsect hne
              exact ⟨ss, by rw [he1]; rfl, hlen⟩
          | succ j =>
            have hj' : es.get? j = some (.coll c') := hj
            have hc'mem : c'.posts ∈ entryIds es := by
              apply List.mem_filterMap.mpr
              exact ⟨.coll c', List.get?_mem hj', rfl⟩
            have hc'b : c'.posts < h.arrays.length := by
              apply hbound
              rw [hidcons]
              exact List.mem_cons_of_mem _ hc'mem
            have hc'ne : c'.posts ≠ c.posts := fun he => hnotin (he ▸ hc'mem)
            have hreadeq : readArr r1.1 c'.posts = readArr h c'.posts := by
              unfold readArr
              rw [f1 c'.posts hc'b hc'ne]
            obtain ⟨hp2, hs2⟩ := hpt2 j c' hj'
            constructor
            · intro hemp
              obtain ⟨nid, out, hg, hpure, hcont⟩ := hp2 hemp
              rw [hreadeq] at hpure
              exact ⟨nid, out, hg, hpure, hcont⟩
            · exact hs2
        · cases h1

/-- C10: `transformPosts` returns the very same document reference it was
given and shapes it in place: afterwards the document holds one output entry
per input collection — an unstructured collection is the same collection
rebound to a fresh array holding exactly its filtered/sorted/sliced
(pre-call) posts, and a structured collection is replaced entirely by a
`{ sections }` object with one section per structure key — so the caller's
original job document no longer holds the pre-shaping post lists.
(Hypotheses: the document exists and its collections' posts references are
valid and pairwise distinct, as they are for a freshly parsed document.) -/
theorem transformPosts_inPlace (rt : String → JSValue → Bool) (h : Heap)
    (did : Nat) (doc : DocObj) (hdoc : h.docs.get? did = some doc)
    (hbound : ∀ id ∈ entryIds doc.mails, id < h.arrays.length)
    (hnodup : (entryIds doc.mails).Nodup)
    (hh : Heap) (did' : Nat)
    (hok : transformPosts rt h did = .ok (hh, did')) :
    did' = did
    ∧ ∃ mails', hh.docs.get? did = some ⟨mails', doc.name⟩
      ∧ mails'.length = doc.mails.length
      ∧ (∀ (j : Nat) (c : CollObj), doc.mails.get? j = some (.coll c) →
          (c.config.struct = [] →
            ∃ nid out, mails'.get? j = some (.coll ⟨nid, c.config⟩)
              ∧ sortAndSlicePost rt ⟨readArr h c.posts, c.config.base⟩ = .ok out
              ∧ readArr hh nid = out.posts)
          ∧ (c.config.struct ≠ [] →
            ∃ ss, mails'.get? j = some (.sections ss)
              ∧ ss.length = c.config.struct.length)) := by
  unfold transformPosts at hok
  rw [hdoc] at hok
  dsimp only at hok
  rcases h1 : transformEntries rt h doc.mails with e | r <;> rw [h1] at hok
  · cases hok
  · cases hok
    obtain ⟨d, l, f, len, hpt⟩ :=
      transformEntries_spec rt doc.mails h r.1 r.2 hbound hnodup (by rw [h1])
    refine ⟨rfl, r.2, ?_, len, fun j c hj => hpt j c hj⟩
    have hdid : did < r.1.docs.length := by
      rw [d]
      exact (List.get?_eq_some.mp hdoc).1
    show (r.1.docs.set did ⟨r.2, doc.name⟩).get? did = some ⟨r.2, doc.name⟩
    rw [List.get?_set_eq, List.get?_eq_get hdid]
    rfl

/-- C10 witness: shaping the example document in place rebinds its single
collection to the fresh array 1, which holds the pure shaping result. -/
theorem transformPosts_inPlace_witness :
    readArr exHeapW2 1 = [recA] := by
  have h := transformPosts_inPlace (fun _ _ => true) exHeapW 0
    ⟨[.coll ⟨0, plainCfg⟩], .str "D"⟩ rfl (by decide) (by decide)
    exHeapW2 0 rfl
  obtain ⟨-, mails', hdoc, hlen, hpt⟩ := h
  obtain ⟨hemp, -⟩ := hpt 0 ⟨0, plainCfg⟩ rfl
  obtain ⟨nid, out, hg, hpure, hcont⟩ := hemp rfl
  have hm : mails' = [.coll ⟨1, plainCfg⟩] := by
    have h2 : (some (⟨[.coll ⟨1, plainCfg⟩], JSValue.str "D"⟩ : DocObj) : Option DocObj)
        = some ⟨mails', JSValue.str "D"⟩ := by
      rw [← hdoc]
      rfl
    injection h2 with h3
    injection h3 with h4 h5
    exact h4.symm
  have hnid : nid = 1 := by
    rw [hm] at hg
    injection hg with h3
    injection h3 with h4
    injection h4 with h6 h7
    exact h6.symm
  have hout : out = ⟨[recA], plainCfg.base⟩ := by
    have h5 : sortAndSlicePost (fun _ _ => true) ⟨readArr exHeapW 0, plainCfg.base⟩
        = .ok ⟨[recA], plainCfg.base⟩ := rfl
    rw [h5] at hpure
    injection hpure with h6
    exact h6.symm
  rw [hnid, hout] at hcont
  exact hcont

end Paisley
